import Mathlib

/-!
Verification of the Declaration Registry & Alias Resolution Engine of
eslint-plugin-titanpl (src/utils/async-detector/dts-file-checker.js and
src/utils/async-detector/index.js).

The JavaScript source keeps its state in plain `Map`s and works on strings.
We embed the maps as association lists with JavaScript `Map.set`/`Map.get`
semantics (`aset` updates in place or appends, `alookup` returns the value at
the first matching key), and embed the string helpers (`split('.')`,
`split(',')`, `join('.')`, `trim`, `startsWith`) as structurally recursive
functions over the character list of a `String`, so that every definition
evaluates by kernel reduction.
-/

set_option autoImplicit false

namespace TitanPL

/-- JavaScript `Map.prototype.get`: value stored at key `k`, if any. -/
def alookup {α : Type} (k : String) : List (String × α) → Option α
  | [] => none
  | (k', v) :: rest => if k = k' then some v else alookup k rest

/-- JavaScript `Map.prototype.set`: replace the value in place if the key is
present, otherwise append the binding at the end. -/
def aset {α : Type} (k : String) (v : α) : List (String × α) → List (String × α)
  | [] => [(k, v)]
  | (k', v') :: rest => if k' = k then (k, v) :: rest else (k', v') :: aset k v rest

theorem alookup_aset_self {α : Type} (k : String) (v : α) (m : List (String × α)) :
    alookup k (aset k v m) = some v := by
  induction m with
  | nil => simp [aset, alookup]
  | cons p rest ih =>
    obtain ⟨k', v'⟩ := p
    by_cases h : k' = k
    · simp [aset, h, alookup]
    · simp [aset, h, alookup, Ne.symm h, ih]

theorem alookup_aset_ne {α : Type} (k k' : String) (v : α) (m : List (String × α))
    (h : k' ≠ k) : alookup k' (aset k v m) = alookup k' m := by
  induction m with
  | nil => simp [aset, alookup, h]
  | cons p rest ih =>
    obtain ⟨k₀, v₀⟩ := p
    by_cases h₀ : k₀ = k
    · subst h₀
      simp [aset, alookup, h, ih]
    · simp [aset, h₀, alookup, ih]

/-- JavaScript `path.split(sep)` for a one-character separator, on character
lists. The result is never empty. -/
def splitCharList (sep : Char) : List Char → List (List Char)
  | [] => [[]]
  | c :: cs =>
    let r := splitCharList sep cs
    if c = sep then [] :: r else (c :: r.headD []) :: r.tail

theorem splitCharList_ne_nil (sep : Char) (l : List Char) : splitCharList sep l ≠ [] := by
  cases l with
  | nil => simp [splitCharList]
  | cons c cs => simp only [splitCharList]; split <;> simp

/-- JavaScript `path.split('.')`. -/
def splitDots (s : String) : List String :=
  (splitCharList '.' s.data).map String.mk

/-- JavaScript `props.split(',')`. -/
def splitCommas (s : String) : List String :=
  (splitCharList ',' s.data).map String.mk

/-- JavaScript `parts.join('.')`. -/
def joinDots : List String → String
  | [] => ""
  | [s] => s
  | s :: r :: rs => s ++ "." ++ joinDots (r :: rs)

/-- JavaScript `String.prototype.trim` on character lists. -/
def trimChars (l : List Char) : List Char :=
  ((l.dropWhile Char.isWhitespace).reverse.dropWhile Char.isWhitespace).reverse

/-- JavaScript `String.prototype.startsWith`. -/
def strStartsWith (s p : String) : Bool :=
  p.data.isPrefixOf s.data

/-- A character of the JavaScript regex class `\w` = `[A-Za-z0-9_]`. -/
def isWordChar (c : Char) : Bool :=
  (c ≥ 'a' && c ≤ 'z') || (c ≥ 'A' && c ≤ 'Z') || (c ≥ '0' && c ≤ '9') || c = '_'

/-- MethodInfo typedef (dts-file-checker.js lines 31-35). -/
structure MethodInfo where
  isAsync : Bool
  returnType : Option String
deriving DecidableEq, Repr

/-- The `source` field of AliasInfo (dts-file-checker.js line 40). -/
inductive AliasSourceKind where
  | destructuring
  | assignment
  | exportAssignment
  | objectProperty
  | declareGlobal
deriving DecidableEq, Repr

/-- AliasInfo typedef (dts-file-checker.js lines 37-42). -/
structure AliasInfo where
  originalPath : String
  source : AliasSourceKind
  isModule : Bool
deriving DecidableEq, Repr

/-- The `methods` and `aliases` maps of the module-level `dtsCache`
(dts-file-checker.js lines 47-60), as read by the query functions after
initialization. -/
structure DtsCache where
  methods : List (String × MethodInfo)
  aliases : List (String × AliasInfo)
deriving DecidableEq, Repr

/-- The `source` field of a DetectionResult (index.js lines 16-22):
`'dts-file' | 'fallback' | null`.  The spec calls the `'dts-file'` value
`source=registry`. -/
inductive DetectionSource where
  | dtsFile
  | fallback
deriving DecidableEq, Repr

/-- DetectionResult typedef (index.js lines 16-22); `none` stands for
JavaScript `null`. -/
structure DetectionResult where
  isAsync : Option Bool
  source : Option DetectionSource
  returnType : Option String
deriving DecidableEq, Repr

/-- NULL_RESULT (dts-file-checker.js line 66). -/
def NULL_RESULT : DetectionResult := ⟨none, none, none⟩

/-- Return value of `checkForAlias` (dts-file-checker.js lines 896-941). -/
structure AliasResult where
  isAlias : Bool
  originalPath : Option String
  source : Option AliasSourceKind
  isModule : Bool
deriving DecidableEq, Repr

/-- The negative `checkForAlias` result (dts-file-checker.js line 902). -/
def noAliasResult : AliasResult := ⟨false, none, none, false⟩

/-- Return value of `resolveAlias` (dts-file-checker.js lines 955-987). -/
structure ResolutionResult where
  resolvedPath : String
  wasAlias : Bool
  isModule : Bool
deriving DecidableEq, Repr

/-- isAsyncReturnType (dts-file-checker.js lines 154-158): a return type is
asynchronous iff, after trimming, it starts with `Promise<` or `Promise <`. -/
def isAsyncReturnType (returnType : String) : Bool :=
  if returnType = "" then false
  else
    let trimmed := String.mk (trimChars returnType.data)
    strStartsWith trimmed "Promise<" || strStartsWith trimmed "Promise <"

/-- isTitanPath (dts-file-checker.js lines 165-168). -/
def isTitanPath (path : String) : Bool :=
  if path = "" then false
  else strStartsWith path "t." || strStartsWith path "Titan."

/-- isTitanCallee (utils/is-titan-callee.js lines 6-8). -/
def isTitanCallee (calleePath : String) : Bool :=
  strStartsWith calleePath "t." || strStartsWith calleePath "Titan."

/-- hasSubMethods (dts-file-checker.js lines 594-602): does any registered
method path start with `path + "."`? -/
def hasSubMethods (methods : List (String × MethodInfo)) (path : String) : Bool :=
  methods.any (fun kv => strStartsWith kv.1 (path ++ "."))

/-- resolveMethodPath (dts-file-checker.js lines 770-824), the Path Resolver
core: direct method path, then direct alias, then module-alias splitting, then
the step-4 object-property lookup, then unresolved. -/
def resolveMethodPath (c : DtsCache) (path : String) : String × Option MethodInfo :=
  match alookup path c.methods with
  | some mi => (path, some mi)
  | none =>
    match alookup path c.aliases with
    | some directAlias => (directAlias.originalPath, alookup directAlias.originalPath c.methods)
    | none =>
      match splitDots path with
      | firstPart :: r1 :: rs =>
        let step4 :=
          match alookup path c.aliases with
          | some objectPropAlias =>
              (objectPropAlias.originalPath, alookup objectPropAlias.originalPath c.methods)
          | none => (path, none)
        match alookup firstPart c.aliases with
        | some aliasRec =>
          if aliasRec.isModule then
            let fullPath := aliasRec.originalPath ++ "." ++ joinDots (r1 :: rs)
            (fullPath, alookup fullPath c.methods)
          else step4
        | none => step4
      | _ => (path, none)

/-- resolveMethodPath with the step-4 object-property branch removed, for the
dead-branch equivalence claim. -/
def resolveMethodPathNoStep4 (c : DtsCache) (path : String) : String × Option MethodInfo :=
  match alookup path c.methods with
  | some mi => (path, some mi)
  | none =>
    match alookup path c.aliases with
    | some directAlias => (directAlias.originalPath, alookup directAlias.originalPath c.methods)
    | none =>
      match splitDots path with
      | firstPart :: r1 :: rs =>
        match alookup firstPart c.aliases with
        | some aliasRec =>
          if aliasRec.isModule then
            let fullPath := aliasRec.originalPath ++ "." ++ joinDots (r1 :: rs)
            (fullPath, alookup fullPath c.methods)
          else (path, none)
        | none => (path, none)
      | _ => (path, none)

/-- checkWithDtsFile (dts-file-checker.js lines 861-887), with the global
cache state and the discovered project root as explicit arguments: on a null
project root the query short-circuits to NULL_RESULT, otherwise the resolved
method info is reported with source `'dts-file'`. -/
def checkWithDtsFile (c : DtsCache) (projectRoot : Option (List String))
    (methodPath : String) : DetectionResult :=
  match projectRoot with
  | none => NULL_RESULT
  | some _ =>
    match (resolveMethodPath c methodPath).2 with
    | some methodInfo => ⟨some methodInfo.isAsync, some .dtsFile, methodInfo.returnType⟩
    | none => NULL_RESULT

/-- checkForAlias (dts-file-checker.js lines 896-941): direct alias lookup,
then module-alias path resolution on the first dot segment. -/
def checkForAlias (c : DtsCache) (projectRoot : Option (List String))
    (name : String) : AliasResult :=
  match projectRoot with
  | none => noAliasResult
  | some _ =>
    match alookup name c.aliases with
    | some aliasRec => ⟨true, some aliasRec.originalPath, some aliasRec.source, aliasRec.isModule⟩
    | none =>
      match splitDots name with
      | firstPart :: r1 :: rs =>
        match alookup firstPart c.aliases with
        | some moduleAlias =>
          if moduleAlias.isModule then
            ⟨true, some (moduleAlias.originalPath ++ "." ++ joinDots (r1 :: rs)),
              some moduleAlias.source, true⟩
          else noAliasResult
        | none => noAliasResult
      | _ => noAliasResult

/-- resolveAlias (dts-file-checker.js lines 955-987): the public `resolve`
query.  Note the returned `isModule` is `methodInfo === undefined &&
hasSubMethods(resolvedPath)`, not the alias descriptor's flag. -/
def resolveAlias (c : DtsCache) (projectRoot : Option (List String))
    (methodPath : String) : ResolutionResult :=
  match projectRoot with
  | none => ⟨methodPath, false, false⟩
  | some _ =>
    if isTitanPath methodPath then ⟨methodPath, false, false⟩
    else
      let r := resolveMethodPath c methodPath
      if r.1 ≠ methodPath ∧ isTitanPath r.1 = true then
        ⟨r.1, true, r.2.isNone && hasSubMethods c.methods r.1⟩
      else ⟨methodPath, false, false⟩

/-- Return value of index.js resolveMethodPath (index.js lines 39-66). -/
structure IdxResolveResult where
  resolvedPath : String
  wasAlias : Bool
  aliasSource : Option AliasSourceKind
deriving DecidableEq, Repr

/-- resolveMethodPath of index.js (lines 39-66): direct Titan callee, else
alias lookup via checkForAlias.  The JavaScript guard is
`aliasInfo.isAlias && aliasInfo.originalPath`, so an empty original path is
falsy and leaves the name unresolved. -/
def idxResolveMethodPath (c : DtsCache) (projectRoot : Option (List String))
    (methodName : String) : IdxResolveResult :=
  if isTitanCallee methodName then ⟨methodName, false, none⟩
  else
    let aliasInfo := checkForAlias c projectRoot methodName
    match aliasInfo.originalPath with
    | some op =>
      if aliasInfo.isAlias && op ≠ "" then ⟨op, true, aliasInfo.source⟩
      else ⟨methodName, false, none⟩
    | none => ⟨methodName, false, none⟩

/-- detectAsyncMethod (index.js lines 77-119), the `classify` cascade:
alias resolution, Titan-callee gate, memo lookup, DTS registry lookup, then
the permissive fallback.  `memo` is the AsyncMethodCache contents; only the
returned value is modelled, not the memo insertions. -/
def detectAsyncMethod (memo : List (String × DetectionResult)) (c : DtsCache)
    (projectRoot : Option (List String)) (methodPath : String) : DetectionResult :=
  let r := idxResolveMethodPath c projectRoot methodPath
  let pathToCheck := r.resolvedPath
  if isTitanCallee pathToCheck = false then ⟨some false, none, none⟩
  else
    match alookup pathToCheck memo with
    | some cached => cached
    | none =>
      let result := checkWithDtsFile c projectRoot pathToCheck
      match result.isAsync with
      | some _ => result
      | none => ⟨some false, some .fallback, none⟩

/-- One registry-insertion event of the Declaration Parser.  The declaration
documents are processed by regex loops whose per-match bodies are the three
registration actions below; a parse of a sequence of documents is the sequence
of the matches' actions in source order.
`nsAsync` is the body of the async-method loop of parseNamespaceContent
(dts-file-checker.js lines 347-356, unconditional set with isAsync true),
`nsSync` the body of its sync-method loop (lines 360-371, set only when the
path is absent), and `ifaceResolve` the set performed by resolveTitanInterface
and resolveNestedInterface (lines 241-278, unconditional) for an interface
member whose info was built by parseInterfaceMethods (lines 186-196, isAsync
computed by isAsyncReturnType). -/
inductive RegEvent where
  | nsAsync (path returnType : String)
  | nsSync (path returnType : String)
  | ifaceResolve (path returnType : String)
deriving DecidableEq, Repr

/-- Effect of one registration event on the `dtsCache.methods` map. -/
def applyRegEvent (m : List (String × MethodInfo)) : RegEvent → List (String × MethodInfo)
  | .nsAsync path returnType => aset path ⟨true, some returnType⟩ m
  | .nsSync path returnType =>
    match alookup path m with
    | some _ => m
    | none => aset path ⟨false, some returnType⟩ m
  | .ifaceResolve path returnType => aset path ⟨isAsyncReturnType returnType, some returnType⟩ m

/-- Registry after a sequence of registration events. -/
def applyRegEvents (m : List (String × MethodInfo)) (es : List RegEvent) :
    List (String × MethodInfo) :=
  es.foldl applyRegEvent m

/-- An event of the namespace parser (not of interface resolution). -/
def isNsEvent : RegEvent → Bool
  | .nsAsync _ _ => true
  | .nsSync _ _ => true
  | .ifaceResolve _ _ => false

/-- Whether an event derives `path` as asynchronous. -/
def derivesAsync (path : String) : RegEvent → Bool
  | .nsAsync p _ => p = path
  | .nsSync _ _ => false
  | .ifaceResolve p rt => p = path && isAsyncReturnType rt

/-- The rename-destructuring regex `^(\w+)\s*:\s*(\w+)$` of
parseSourceFileAliases (dts-file-checker.js line 475), on a trimmed character
list: a maximal nonempty word, optional whitespace, a colon, optional
whitespace, then a nonempty word reaching the end. -/
def matchRenameProp (l : List Char) : Option (List Char × List Char) :=
  let w1 := l.takeWhile isWordChar
  let rest := l.dropWhile isWordChar
  if w1 = [] then none
  else
    match rest.dropWhile Char.isWhitespace with
    | ':' :: r2 =>
      let w2 := r2.dropWhile Char.isWhitespace
      if w2 ≠ [] ∧ w2.all isWordChar then some (w1, w2) else none
    | _ => none

/-- The simple-destructuring regex `^(\w+)$` of parseSourceFileAliases
(dts-file-checker.js line 491). -/
def matchSimpleProp (l : List Char) : Option (List Char) :=
  if l ≠ [] ∧ l.all isWordChar then some l else none

/-- Body of the per-property loop of the destructuring pattern of
parseSourceFileAliases (dts-file-checker.js lines 469-504): trim the property,
try the rename form then the simple form, and on a match record a
`destructuring` alias whose originalPath joins the prefix and the member's
original name, with `isModule` from a hasSubMethods query. -/
def parseDestructuredProp (c : DtsCache) (pfx : String) (prop : String) : DtsCache :=
  let t := trimChars prop.data
  if t = [] then c
  else
    match matchRenameProp t with
    | some (originalName, aliasName) =>
      let originalPath := pfx ++ "." ++ String.mk originalName
      let info : AliasInfo := ⟨originalPath, .destructuring, hasSubMethods c.methods originalPath⟩
      { c with aliases := aset (String.mk aliasName) info c.aliases }
    | none =>
      match matchSimpleProp t with
      | some propName =>
        let originalPath := pfx ++ "." ++ String.mk propName
        let info : AliasInfo := ⟨originalPath, .destructuring, hasSubMethods c.methods originalPath⟩
        { c with aliases := aset (String.mk propName) info c.aliases }
      | none => c

/-- One matched destructuring statement of parseSourceFileAliases
(dts-file-checker.js lines 460-505): `sourceVar` is the matched runtime root
(`t` or `Titan`), `path` the optional intermediate sub-path (empty when
absent, so the prefix is the bare root, line 466), `props` the brace body
split on commas. -/
def parseDestructuring (c : DtsCache) (sourceVar path props : String) : DtsCache :=
  let pfx := if path = "" then sourceVar else sourceVar ++ "." ++ path
  (splitCommas props).foldl (fun acc p => parseDestructuredProp acc pfx p) c

/-- The alias name a destructuring property would bind, per the two regexes. -/
def boundNameOf (prop : String) : Option String :=
  let t := trimChars prop.data
  if t = [] then none
  else
    match matchRenameProp t with
    | some (_, aliasName) => some (String.mk aliasName)
    | none =>
      match matchSimpleProp t with
      | some propName => some (String.mk propName)
      | none => none

/-- The member's original name in a destructuring property, per the two
regexes. -/
def originalNameOf (prop : String) : Option String :=
  let t := trimChars prop.data
  if t = [] then none
  else
    match matchRenameProp t with
    | some (originalName, _) => some (String.mk originalName)
    | none =>
      match matchSimpleProp t with
      | some propName => some (String.mk propName)
      | none => none

/-- Body of the object-literal property loop of parseSourceFileAliases
(dts-file-checker.js lines 565-579): the alias key is the compound
`objectName.propName`, the original path joins the matched runtime root and
path, and `isModule` is the literal `false` — no hasSubMethods query is made. -/
def recordObjectPropertyAlias (aliases : List (String × AliasInfo))
    (objectName propName sourceVar path : String) : List (String × AliasInfo) :=
  aset (objectName ++ "." ++ propName)
    ⟨sourceVar ++ "." ++ path, .objectProperty, false⟩ aliases

/-- findProjectRoot (dts-file-checker.js lines 97-110).  An absolute directory
is modelled as its segment list with the leaf segment first, so `dirname` is
`List.tail` and the filesystem root `resolve('/')` is `[]`; `fs p` models
`existsSync(join(p, 'package.json'))`.  The while loop runs only while the
current path differs from the root, so the root directory itself is never
consulted. -/
def findProjectRoot (fs : List String → Bool) : List String → Option (List String)
  | [] => none
  | s :: rest => if fs (s :: rest) then some (s :: rest) else findProjectRoot fs rest

/-- The `interfaces` map entries of the dtsCache (line 53). -/
def InterfaceTable : Type := List (String × List (String × MethodInfo))
deriving DecidableEq

/-- The full module-level dtsCache record (dts-file-checker.js lines 47-60). -/
structure DtsCacheState where
  methods : List (String × MethodInfo)
  aliases : List (String × AliasInfo)
  interfaces : InterfaceTable
  initialized : Bool
  projectRoot : Option (List String)
  lastParsedFile : Option String

/-- The initial module-level state (dts-file-checker.js lines 47-60). -/
def emptyCacheState : DtsCacheState := ⟨[], [], [], false, none, none⟩

/-- What one full project scan deposits into the cache maps. -/
structure ScanResult where
  methods : List (String × MethodInfo)
  aliases : List (String × AliasInfo)
  interfaces : InterfaceTable

/-- initializeCache (dts-file-checker.js lines 731-752): a no-op when already
initialized for the same root, otherwise the maps are cleared and rebuilt by
the two-pass scan.  The scan (scanNodeModules + scanDirectory) only reads the
project tree, so for an unchanged tree it is a pure function of the root,
passed here as `scan`; `_lastParsedFile` is not touched by initializeCache. -/
def initializeCache (scan : List String → ScanResult) (st : DtsCacheState)
    (projectRoot : List String) : DtsCacheState :=
  if st.initialized = true ∧ st.projectRoot = some projectRoot then st
  else
    { methods := (scan projectRoot).methods
      aliases := (scan projectRoot).aliases
      interfaces := (scan projectRoot).interfaces
      initialized := true
      projectRoot := some projectRoot
      lastParsedFile := st.lastParsedFile }

/-- clearDtsCache (dts-file-checker.js lines 1000-1007): every field reset. -/
def clearDtsCache (_ : DtsCacheState) : DtsCacheState := emptyCacheState

/-- The environment a public query runs against: the ESLint context's
filename (whose getter may throw), the package.json probe backing
findProjectRoot, the dirname of the filename in the segment model, and the
cache contents produced by initializeCache (and, for checkForAlias and
resolveAlias, parseCurrentFileSource), any internal failure of which is
modelled as an error value.  `Except.error ()` stands for a thrown
JavaScript exception. -/
structure QueryEnv where
  filename : Except Unit String
  fs : List String → Bool
  dirOf : String → List String
  initCache : List String → Except Unit DtsCache

/-- checkWithDtsFile with its try/catch (dts-file-checker.js lines 861-887):
the body runs in an exception monad and any error is caught and mapped to
NULL_RESULT. -/
def checkWithDtsFileSafe (env : QueryEnv) (methodPath : String) : DetectionResult :=
  let body : Except Unit DetectionResult := do
    let fn ← env.filename
    match findProjectRoot env.fs (env.dirOf fn) with
    | none => pure NULL_RESULT
    | some r => do
      let c ← env.initCache r
      pure (checkWithDtsFile c (some r) methodPath)
  match body with
  | .ok res => res
  | .error _ => NULL_RESULT

/-- checkForAlias with its try/catch (dts-file-checker.js lines 896-941). -/
def checkForAliasSafe (env : QueryEnv) (name : String) : AliasResult :=
  let body : Except Unit AliasResult := do
    let fn ← env.filename
    match findProjectRoot env.fs (env.dirOf fn) with
    | none => pure noAliasResult
    | some r => do
      let c ← env.initCache r
      pure (checkForAlias c (some r) name)
  match body with
  | .ok res => res
  | .error _ => noAliasResult

/-- resolveAlias with its try/catch (dts-file-checker.js lines 955-987). -/
def resolveAliasSafe (env : QueryEnv) (methodPath : String) : ResolutionResult :=
  let body : Except Unit ResolutionResult := do
    let fn ← env.filename
    match findProjectRoot env.fs (env.dirOf fn) with
    | none => pure ⟨methodPath, false, false⟩
    | some r => do
      let c ← env.initCache r
      pure (resolveAlias c (some r) methodPath)
  match body with
  | .ok res => res
  | .error _ => ⟨methodPath, false, false⟩

/-- resolveMethodPath of index.js (lines 39-66) against an environment:
checkForAlias catches its own errors, so no try/catch is needed here. -/
def idxResolveMethodPathSafe (env : QueryEnv) (methodName : String) : IdxResolveResult :=
  if isTitanCallee methodName then ⟨methodName, false, none⟩
  else
    let aliasInfo := checkForAliasSafe env methodName
    match aliasInfo.originalPath with
    | some op =>
      if aliasInfo.isAlias && op ≠ "" then ⟨op, true, aliasInfo.source⟩
      else ⟨methodName, false, none⟩
    | none => ⟨methodName, false, none⟩

/-- detectAsyncMethod (index.js lines 77-119) against an environment: every
callee that can throw catches internally, so the cascade itself is total. -/
def detectAsyncMethodSafe (env : QueryEnv) (memo : List (String × DetectionResult))
    (methodPath : String) : DetectionResult :=
  let r := idxResolveMethodPathSafe env methodPath
  let pathToCheck := r.resolvedPath
  if isTitanCallee pathToCheck = false then ⟨some false, none, none⟩
  else
    match alookup pathToCheck memo with
    | some cached => cached
    | none =>
      let result := checkWithDtsFileSafe env pathToCheck
      match result.isAsync with
      | some _ => result
      | none => ⟨some false, some .fallback, none⟩

/-- C9: the step-4 object-property branch of resolveMethodPath is dead code —
it repeats the step-2 lookup on the same unchanged alias map, which is only
reached when that lookup already returned nothing, so removing the branch
yields an extensionally equal function. -/
theorem resolveMethodPath_step4_dead (c : DtsCache) (path : String) :
    resolveMethodPath c path = resolveMethodPathNoStep4 c path := by
  rw [resolveMethodPath, resolveMethodPathNoStep4]
  cases h1 : alookup path c.methods with
  | some mi => rfl
  | none =>
    cases h2 : alookup path c.aliases with
    | some a => rfl
    | none =>
      cases h3 : splitDots path with
      | nil => rfl
      | cons f rest =>
        cases rest with
        | nil => rfl
        | cons r1 rs => simp only [h2]

/-- C7: for an unchanged project tree (the scan being a fixed function of the
root), re-running initializeCache on an initialized cache is a no-op, and an
explicit clearDtsCache followed by re-initialization rebuilds exactly the
state a single initialization produces. -/
theorem initializeCache_idempotent (scan : List String → ScanResult) (root : List String) :
    initializeCache scan (initializeCache scan emptyCacheState root) root
      = initializeCache scan emptyCacheState root
    ∧ initializeCache scan (clearDtsCache (initializeCache scan emptyCacheState root)) root
      = initializeCache scan emptyCacheState root := by
  constructor
  · simp [initializeCache, emptyCacheState]
  · simp [initializeCache, clearDtsCache, emptyCacheState]

/-- C1 counterexample: with the module alias `db -> t.db` recorded and
`t.db.query` registered, resolveAlias("db.query") returns the composed path
with wasAlias=true but isModule=false — not isModule=true as claimed —
because the returned isModule is `methodInfo === undefined &&
hasSubMethods(resolvedPath)` and the composed path has a direct registry
entry. -/
theorem resolveAlias_module_counterexample :
    resolveAlias
        ⟨[("t.db.query", ⟨true, some "Promise<Row>"⟩)],
         [("db", ⟨"t.db", AliasSourceKind.assignment, true⟩)]⟩
        (some []) "db.query"
      = ⟨"t.db.query", true, false⟩
    ∧ (resolveAlias
        ⟨[("t.db.query", ⟨true, some "Promise<Row>"⟩)],
         [("db", ⟨"t.db", AliasSourceKind.assignment, true⟩)]⟩
        (some []) "db.query").isModule ≠ true := by
  constructor
  · decide
  · decide

/-- C2 counterexample: a declaration sequence that derives `t.fetch` as
asynchronous through the namespace parser and afterwards re-derives it as
synchronous through interface resolution (declare-global `const t: T` with a
sync `fetch` member) ends with isAsync=false: resolveTitanInterface's
unconditional set overwrites the async entry, so first-async-wins does not
hold across all declaration derivations. -/
theorem firstAsyncWins_counterexample :
    derivesAsync "t.fetch" (RegEvent.nsAsync "t.fetch" "Promise<Response>") = true
    ∧ (RegEvent.nsAsync "t.fetch" "Promise<Response>")
        ∈ [RegEvent.nsAsync "t.fetch" "Promise<Response>",
           RegEvent.ifaceResolve "t.fetch" "string"]
    ∧ (alookup "t.fetch" (applyRegEvents []
        [RegEvent.nsAsync "t.fetch" "Promise<Response>",
         RegEvent.ifaceResolve "t.fetch" "string"])).map MethodInfo.isAsync
      = some false := by
  refine ⟨by decide, by decide, by decide⟩

theorem findProjectRoot_congr (fs fs' : List String → Bool) (start : List String)
    (h : ∀ p, p ≠ [] → fs p = fs' p) :
    findProjectRoot fs start = findProjectRoot fs' start := by
  induction start with
  | nil => rfl
  | cons s rest ih =>
    rw [findProjectRoot, findProjectRoot, h (s :: rest) (by simp)]
    cases fs' (s :: rest) <;> simp [ih]

/-- C10: findProjectRoot never consults the filesystem root — the walk stops
when the current path becomes the root, without probing it — so when no
directory strictly above the root holds package.json the result is null, the
result does not depend on whether the root itself holds one, and a null root
short-circuits every public query to its none/fallback default. -/
theorem findProjectRoot_skips_fs_root (fs : List String → Bool) (start : List String) :
    ((∀ p ∈ start.tails, p ≠ [] → fs p = false) → findProjectRoot fs start = none)
    ∧ (∀ fs' : List String → Bool, (∀ p, p ≠ [] → fs p = fs' p) →
        findProjectRoot fs start = findProjectRoot fs' start)
    ∧ (∀ (env : QueryEnv) (fn name mp : String), env.filename = Except.ok fn →
        findProjectRoot env.fs (env.dirOf fn) = none →
        checkWithDtsFileSafe env mp = NULL_RESULT
        ∧ checkForAliasSafe env name = noAliasResult
        ∧ resolveAliasSafe env mp = ⟨mp, false, false⟩) := by
  refine ⟨?_, fun fs' h => findProjectRoot_congr fs fs' start h, ?_⟩
  · induction start with
    | nil => intro _; rfl
    | cons s rest ih =>
      intro h
      rw [findProjectRoot, h (s :: rest) (by simp [List.tails]) (by simp)]
      simp only [if_neg (by simp : ¬(false = true))]
      exact ih (fun p hp hne => h p (by simp [List.tails] at hp ⊢; right; exact hp) hne)
  · intro env fn name mp hfn hroot
    refine ⟨?_, ?_, ?_⟩
    · simp [checkWithDtsFileSafe, hfn, hroot, Bind.bind, Except.bind, Pure.pure, Except.pure]
    · simp [checkForAliasSafe, hfn, hroot, Bind.bind, Except.bind, Pure.pure, Except.pure]
    · simp [resolveAliasSafe, hfn, hroot, Bind.bind, Except.bind, Pure.pure, Except.pure]

/-- Witness for C10 at a concrete two-segment start path whose only
package.json sits at the filesystem root. -/
theorem findProjectRoot_skips_fs_root_witness :
    findProjectRoot (fun p => decide (p = [])) ["b", "a"] = none
    ∧ checkWithDtsFileSafe
        ⟨Except.ok "f", fun p => decide (p = []), fun _ => ["b", "a"], fun _ => Except.error ()⟩
        "t.fetch" = NULL_RESULT := by
  constructor
  · exact (findProjectRoot_skips_fs_root (fun p => decide (p = [])) ["b", "a"]).1 (by decide)
  · exact ((findProjectRoot_skips_fs_root (fun p => decide (p = [])) ["b", "a"]).2.2
      ⟨Except.ok "f", fun p => decide (p = []), fun _ => ["b", "a"], fun _ => Except.error ()⟩
      "f" "x" "t.fetch" rfl (by decide)).1

/-- C1 amended: resolving a compound name whose head segment is a recorded
module alias composes the alias's originalPath with the remaining suffix and
returns wasAlias=true; but when the registry holds a direct entry for the
composed path, the returned isModule is false (resolveAlias reports
`methodInfo === undefined && hasSubMethods(resolvedPath)`), not true as the
spec states. -/
theorem resolveAlias_module_composition (c : DtsCache) (r : List String)
    (name a : String) (rest : List String) (al : AliasInfo) (mi : MethodInfo)
    (hsplit : splitDots name = a :: rest)
    (hrest : rest ≠ [])
    (hnotitan : isTitanPath name = false)
    (hm : alookup name c.methods = none)
    (ha : alookup name c.aliases = none)
    (hal : alookup a c.aliases = some al)
    (hmod : al.isModule = true)
    (hreg : alookup (al.originalPath ++ "." ++ joinDots rest) c.methods = some mi)
    (hcomp : isTitanPath (al.originalPath ++ "." ++ joinDots rest) = true) :
    resolveAlias c (some r) name
      = ⟨al.originalPath ++ "." ++ joinDots rest, true, false⟩ := by
  obtain ⟨r1, rs, rfl⟩ : ∃ r1 rs, rest = r1 :: rs := by
    cases rest with
    | nil => exact absurd rfl hrest
    | cons r1 rs => exact ⟨r1, rs, rfl⟩
  have hne : al.originalPath ++ "." ++ joinDots (r1 :: rs) ≠ name := by
    intro he
    rw [he] at hcomp
    rw [hcomp] at hnotitan
    exact absurd hnotitan (by simp)
  have hres : resolveMethodPath c name
      = (al.originalPath ++ "." ++ joinDots (r1 :: rs), some mi) := by
    rw [resolveMethodPath, hm, ha, hsplit]
    simp [hal, hmod, hreg]
  rw [resolveAlias]
  simp [hnotitan, hres, hne, hcomp]

/-- Witness for C1's amended statement: `db = t.db` with `t.db.query`
registered resolves `db.query` to `t.db.query`, wasAlias=true,
isModule=false. -/
theorem resolveAlias_module_composition_witness :
    resolveAlias
        ⟨[("t.db.query", ⟨true, some "Promise<Row>"⟩)],
         [("db", ⟨"t.db", AliasSourceKind.assignment, true⟩)]⟩
        (some []) "db.query"
      = ⟨"t.db.query", true, false⟩ :=
  resolveAlias_module_composition
    ⟨[("t.db.query", ⟨true, some "Promise<Row>"⟩)],
     [("db", ⟨"t.db", AliasSourceKind.assignment, true⟩)]⟩
    [] "db.query" "db" ["query"]
    ⟨"t.db", AliasSourceKind.assignment, true⟩
    ⟨true, some "Promise<Row>"⟩
    (by decide) (by decide) (by decide) (by decide) (by decide) (by decide)
    (by decide) (by decide) (by decide)

/-- C3: classify on a canonical path with a registry entry returns exactly
the registered descriptor — isAsync as recorded (true iff the declared
return type matched the Promise wrapper form at registration) and the
recorded return type — with source `'dts-file'` (the spec's
source=registry). -/
theorem classify_registered_path (memo : List (String × DetectionResult)) (c : DtsCache)
    (r : List String) (path : String) (mi : MethodInfo)
    (hreg : alookup path c.methods = some mi)
    (htitan : isTitanCallee path = true)
    (hmemo : alookup path memo = none) :
    detectAsyncMethod memo c (some r) path
      = ⟨some mi.isAsync, some DetectionSource.dtsFile, mi.returnType⟩ := by
  rw [detectAsyncMethod, idxResolveMethodPath]
  simp only [htitan, if_true]
  rw [checkWithDtsFile, resolveMethodPath, hreg]
  simp [htitan, hmemo]

/-- Witness for C3: registered async `t.fetch` classifies as
{isAsync:true, source:'dts-file'} with its recorded return type. -/
theorem classify_registered_path_witness :
    detectAsyncMethod [] ⟨[("t.fetch", ⟨true, some "Promise<Response>"⟩)], []⟩ (some [])
        "t.fetch"
      = ⟨some true, some DetectionSource.dtsFile, some "Promise<Response>"⟩ :=
  classify_registered_path [] ⟨[("t.fetch", ⟨true, some "Promise<Response>"⟩)], []⟩ []
    "t.fetch" ⟨true, some "Promise<Response>"⟩ (by decide) (by decide) rfl

/-- C4: a name resolving to a Titan-rooted path with no registry entry (and
no applicable alias rewriting it to one) classifies as the permissive
fallback {isAsync:false, source:'fallback', returnType:null}. -/
theorem classify_unknown_titan_fallback (memo : List (String × DetectionResult))
    (c : DtsCache) (r : List String) (name : String)
    (hres : isTitanCallee (idxResolveMethodPath c (some r) name).resolvedPath = true)
    (hmemo : alookup (idxResolveMethodPath c (some r) name).resolvedPath memo = none)
    (hnoreg : (resolveMethodPath c (idxResolveMethodPath c (some r) name).resolvedPath).2
      = none) :
    detectAsyncMethod memo c (some r) name
      = ⟨some false, some DetectionSource.fallback, none⟩ := by
  rw [detectAsyncMethod]
  simp only [hres, if_neg (by simp : ¬(true = false)), hmemo]
  rw [checkWithDtsFile, hnoreg]
  rfl

/-- Witness for C4: with an empty registry, `t.unknownThirdPartyMethod`
classifies as the permissive fallback (the spec's Scenario E). -/
theorem classify_unknown_titan_fallback_witness :
    detectAsyncMethod [] ⟨[], []⟩ (some []) "t.unknownThirdPartyMethod"
      = ⟨some false, some DetectionSource.fallback, none⟩ :=
  classify_unknown_titan_fallback [] ⟨[], []⟩ [] "t.unknownThirdPartyMethod"
    (by decide) (by decide) (by decide)

theorem ns_event_preserves_async (m : List (String × MethodInfo)) (e : RegEvent)
    (path : String) (hns : isNsEvent e = true)
    (h : (alookup path m).map MethodInfo.isAsync = some true) :
    (alookup path (applyRegEvent m e)).map MethodInfo.isAsync = some true := by
  cases e with
  | nsAsync p rt =>
    by_cases hp : path = p
    · subst hp
      rw [applyRegEvent, alookup_aset_self]
      rfl
    · rw [applyRegEvent, alookup_aset_ne p path _ m hp]
      exact h
  | nsSync p rt =>
    rw [applyRegEvent]
    cases hl : alookup p m with
    | some mi => exact h
    | none =>
      by_cases hp : path = p
      · subst hp
        rw [hl] at h
        exact absurd h (by simp)
      · rw [alookup_aset_ne p path _ m hp]
        exact h
  | ifaceResolve p rt => exact absurd hns (by simp [isNsEvent])

theorem ns_events_preserve_async (m : List (String × MethodInfo)) (es : List RegEvent)
    (path : String) (hns : ∀ e ∈ es, isNsEvent e = true)
    (h : (alookup path m).map MethodInfo.isAsync = some true) :
    (alookup path (applyRegEvents m es)).map MethodInfo.isAsync = some true := by
  induction es generalizing m with
  | nil => exact h
  | cons e rest ih =>
    rw [applyRegEvents, List.foldl_cons]
    exact ih (applyRegEvent m e) (fun e' he' => hns e' (List.mem_cons_of_mem e he'))
      (ns_event_preserves_async m e path (hns e (List.mem_cons_self e rest)) h)

/-- C2 amended: for registrations that all flow through the namespace parser
(parseNamespaceContent: async matches set unconditionally, sync matches set
only when the path is absent), first-async-wins holds order-independently —
any sequence containing an async derivation of a path leaves that path
asynchronous.  The restriction to namespace events is forced by the
counterexample: resolveTitanInterface re-registration is an unconditional
overwrite. -/
theorem firstAsyncWins_namespace (m : List (String × MethodInfo)) (es : List RegEvent)
    (path rt : String)
    (hns : ∀ e ∈ es, isNsEvent e = true)
    (hmem : RegEvent.nsAsync path rt ∈ es) :
    (alookup path (applyRegEvents m es)).map MethodInfo.isAsync = some true := by
  induction es generalizing m with
  | nil => exact absurd hmem (List.not_mem_nil _)
  | cons e rest ih =>
    rw [applyRegEvents, List.foldl_cons]
    rcases List.mem_cons.mp hmem with he | hrest
    · subst he
      apply ns_events_preserve_async
      · exact fun e' he' => hns e' (List.mem_cons_of_mem _ he')
      · rw [applyRegEvent, alookup_aset_self]
        rfl
    · exact ih (applyRegEvent m e) (fun e' he' => hns e' (List.mem_cons_of_mem e he')) hrest

/-- Witness for C2's amended statement: sync-then-async-then-sync namespace
derivations of `t.x` end asynchronous. -/
theorem firstAsyncWins_namespace_witness :
    (alookup "t.x" (applyRegEvents []
        [RegEvent.nsSync "t.x" "string",
         RegEvent.nsAsync "t.x" "Promise<A>",
         RegEvent.nsSync "t.x" "number"])).map MethodInfo.isAsync = some true :=
  firstAsyncWins_namespace []
    [RegEvent.nsSync "t.x" "string",
     RegEvent.nsAsync "t.x" "Promise<A>",
     RegEvent.nsSync "t.x" "number"]
    "t.x" "Promise<A>" (by decide) (by decide)

/-- C5: an object-property alias key classifies exactly like its target
canonical path (the resolver rewrites the compound key to the target before
the registry cascade), and the recorded alias descriptor always carries
isModule=false — the object-literal extraction registers `false` without
consulting the registry, so the object name is never treated as a module
alias even when the target has descendant paths. -/
theorem objectPropertyAlias_behavior :
    (∀ (memo : List (String × DetectionResult)) (c : DtsCache) (r : List String)
        (key : String) (al : AliasInfo),
      alookup key c.aliases = some al →
      isTitanCallee key = false →
      isTitanCallee al.originalPath = true →
      al.originalPath ≠ "" →
      detectAsyncMethod memo c (some r) key
        = detectAsyncMethod memo c (some r) al.originalPath)
    ∧ (∀ (aliases : List (String × AliasInfo)) (objectName propName sourceVar path : String),
      alookup (objectName ++ "." ++ propName)
          (recordObjectPropertyAlias aliases objectName propName sourceVar path)
        = some ⟨sourceVar ++ "." ++ path, AliasSourceKind.objectProperty, false⟩) := by
  constructor
  · intro memo c r key al hal hkey htitan hne
    rw [detectAsyncMethod, detectAsyncMethod, idxResolveMethodPath, idxResolveMethodPath]
    rw [checkForAlias]
    simp [hkey, htitan, hal, hne]
  · intro aliases objectName propName sourceVar path
    exact alookup_aset_self _ _ _

/-- Witness for C5: `utils = { fetch: t.fetch }` makes `utils.fetch` classify
exactly like `t.fetch`, and the recorded alias has isModule=false. -/
theorem objectPropertyAlias_behavior_witness :
    detectAsyncMethod [] ⟨[("t.fetch", ⟨true, some "Promise<Response>"⟩)],
        [("utils.fetch", ⟨"t.fetch", AliasSourceKind.objectProperty, false⟩)]⟩
      (some []) "utils.fetch"
      = detectAsyncMethod [] ⟨[("t.fetch", ⟨true, some "Promise<Response>"⟩)],
          [("utils.fetch", ⟨"t.fetch", AliasSourceKind.objectProperty, false⟩)]⟩
        (some []) "t.fetch"
    ∧ alookup "utils.fetch" (recordObjectPropertyAlias [] "utils" "fetch" "t" "fetch")
      = some ⟨"t.fetch", AliasSourceKind.objectProperty, false⟩ :=
  ⟨objectPropertyAlias_behavior.1 []
      ⟨[("t.fetch", ⟨true, some "Promise<Response>"⟩)],
       [("utils.fetch", ⟨"t.fetch", AliasSourceKind.objectProperty, false⟩)]⟩
      [] "utils.fetch" ⟨"t.fetch", AliasSourceKind.objectProperty, false⟩
      (by decide) (by decide) (by decide) (by decide),
   objectPropertyAlias_behavior.2 [] "utils" "fetch" "t" "fetch"⟩

theorem parseDestructuredProp_methods (c : DtsCache) (pfx p : String) :
    (parseDestructuredProp c pfx p).methods = c.methods := by
  rw [parseDestructuredProp]
  split
  · rfl
  · cases matchRenameProp (trimChars p.data) with
    | some w => rfl
    | none =>
      cases matchSimpleProp (trimChars p.data) with
      | some w => rfl
      | none => rfl

theorem foldl_parseDestructuredProp_methods (l : List String) (c : DtsCache) (pfx : String) :
    ((l.foldl (fun acc p => parseDestructuredProp acc pfx p) c).methods) = c.methods := by
  induction l generalizing c with
  | nil => rfl
  | cons p rest ih =>
    rw [List.foldl_cons, ih, parseDestructuredProp_methods]

theorem parseDestructuredProp_aliases_of_bound (c : DtsCache) (pfx p a o : String)
    (hb : boundNameOf p = some a) (ho : originalNameOf p = some o) :
    (parseDestructuredProp c pfx p).aliases
      = aset a ⟨pfx ++ "." ++ o, AliasSourceKind.destructuring,
          hasSubMethods c.methods (pfx ++ "." ++ o)⟩ c.aliases := by
  rw [parseDestructuredProp]
  rw [boundNameOf] at hb
  rw [originalNameOf] at ho
  by_cases ht : trimChars p.data = []
  · rw [if_pos ht] at hb
    exact absurd hb (by simp)
  · rw [if_neg ht] at hb ho
    rw [if_neg ht]
    cases hr : matchRenameProp (trimChars p.data) with
    | some w =>
      obtain ⟨orig, an⟩ := w
      rw [hr] at hb ho
      simp only [Option.some_inj] at hb ho
      subst hb
      subst ho
      rfl
    | none =>
      rw [hr] at hb ho
      cases hs : matchSimpleProp (trimChars p.data) with
      | some n =>
        rw [hs] at hb ho
        simp only [Option.some_inj] at hb ho
        subst hb
        subst ho
        rfl
      | none =>
        rw [hs] at hb
        exact absurd hb (by simp)

theorem parseDestructuredProp_alookup_of_ne (c : DtsCache) (pfx p a : String)
    (hb : boundNameOf p ≠ some a) :
    alookup a (parseDestructuredProp c pfx p).aliases = alookup a c.aliases := by
  rw [parseDestructuredProp]
  rw [boundNameOf] at hb
  by_cases ht : trimChars p.data = []
  · rw [if_pos ht]
  · rw [if_neg ht] at hb
    rw [if_neg ht]
    cases hr : matchRenameProp (trimChars p.data) with
    | some w =>
      obtain ⟨orig, an⟩ := w
      rw [hr] at hb
      exact alookup_aset_ne _ _ _ _ (fun he => hb (congrArg some he.symm))
    | none =>
      rw [hr] at hb
      cases hs : matchSimpleProp (trimChars p.data) with
      | some n =>
        rw [hs] at hb
        exact alookup_aset_ne _ _ _ _ (fun he => hb (congrArg some he.symm))
      | none => rfl

theorem foldl_parseDestructuredProp_alookup_of_ne (l : List String) (c : DtsCache)
    (pfx a : String) (h : ∀ q ∈ l, boundNameOf q ≠ some a) :
    alookup a ((l.foldl (fun acc p => parseDestructuredProp acc pfx p) c).aliases)
      = alookup a c.aliases := by
  induction l generalizing c with
  | nil => rfl
  | cons p rest ih =>
    rw [List.foldl_cons,
      ih (parseDestructuredProp c pfx p) (fun q hq => h q (List.mem_cons_of_mem p hq)),
      parseDestructuredProp_alookup_of_ne c pfx p a (h p (List.mem_cons_self p rest))]

/-- C6: a destructuring extraction from a runtime root (with or without an
intermediate sub-path, with or without renaming) records, for each bound
member not re-bound by a later property of the same statement, an alias whose
originalPath is the prefix — the bare root, or root.path — joined with the
member's original name, with production kind destructuring and isModule from
a registry descendant query. -/
theorem destructuring_records_aliases (c : DtsCache) (sourceVar path props : String)
    (l1 l2 : List String) (p a o : String)
    (hsplit : splitCommas props = l1 ++ p :: l2)
    (hb : boundNameOf p = some a)
    (ho : originalNameOf p = some o)
    (hlater : ∀ q ∈ l2, boundNameOf q ≠ some a) :
    alookup a (parseDestructuring c sourceVar path props).aliases
      = some ⟨(if path = "" then sourceVar else sourceVar ++ "." ++ path) ++ "." ++ o,
          AliasSourceKind.destructuring,
          hasSubMethods c.methods
            ((if path = "" then sourceVar else sourceVar ++ "." ++ path) ++ "." ++ o)⟩ := by
  rw [parseDestructuring]
  rw [hsplit, List.foldl_append, List.foldl_cons]
  rw [foldl_parseDestructuredProp_alookup_of_ne l2 _ _ a hlater]
  rw [parseDestructuredProp_aliases_of_bound _ _ p a o hb ho]
  rw [alookup_aset_self]
  rw [foldl_parseDestructuredProp_methods]

/-- Witness for C6: `const { readFile, rf: myRf } = t.core.fs` records
`myRf -> t.core.fs.rf` (rename form through an intermediate sub-path). -/
theorem destructuring_records_aliases_witness :
    alookup "myRf" (parseDestructuring ⟨[], []⟩ "t" "core.fs" "readFile, rf: myRf").aliases
      = some ⟨"t.core.fs.rf", AliasSourceKind.destructuring, false⟩ :=
  destructuring_records_aliases ⟨[], []⟩ "t" "core.fs" "readFile, rf: myRf"
    ["readFile"] [] " rf: myRf" "myRf" "rf"
    (by decide) (by decide) (by decide) (by decide)

/-- C8: the public query operations are total functions of their inputs —
the embedding returns a plain result for every environment — and every
failure state (a context whose filename getter throws, an initialization
that throws, or an unresolvable project root) is mapped by the internal
try/catch to the encoded default result rather than propagated: resolve
returns the input unresolved, isAlias reports no alias, the registry check
reports NULL_RESULT, and classify degrades to its none/fallback results. -/
theorem queries_never_throw (env : QueryEnv) (memo : List (String × DetectionResult))
    (p n : String)
    (hfail : env.filename = Except.error ()
      ∨ (∀ r, env.initCache r = Except.error ())
      ∨ (∀ fn, findProjectRoot env.fs (env.dirOf fn) = none)) :
    resolveAliasSafe env p = ⟨p, false, false⟩
    ∧ checkForAliasSafe env n = noAliasResult
    ∧ checkWithDtsFileSafe env p = NULL_RESULT
    ∧ detectAsyncMethodSafe env memo p
      = (if isTitanCallee p = true then
          (match alookup p memo with
           | some cached => cached
           | none => ⟨some false, some DetectionSource.fallback, none⟩)
         else ⟨some false, none, none⟩) := by
  have hcfa : ∀ name, checkForAliasSafe env name = noAliasResult := by
    intro name
    rcases hfail with hf | hf | hf
    · simp [checkForAliasSafe, hf, Bind.bind, Except.bind]
    · rw [checkForAliasSafe]
      cases hfn : env.filename with
      | error e => simp [Bind.bind, Except.bind]
      | ok fn =>
        cases hroot : findProjectRoot env.fs (env.dirOf fn) with
        | none => simp [Bind.bind, Except.bind, hroot, Pure.pure, Except.pure]
        | some r => simp [Bind.bind, Except.bind, hroot, hf r, Except.map]
    · rw [checkForAliasSafe]
      cases hfn : env.filename with
      | error e => simp [Bind.bind, Except.bind]
      | ok fn => simp [Bind.bind, Except.bind, hf fn, Pure.pure, Except.pure]
  have hcwd : ∀ mp, checkWithDtsFileSafe env mp = NULL_RESULT := by
    intro mp
    rcases hfail with hf | hf | hf
    · simp [checkWithDtsFileSafe, hf, Bind.bind, Except.bind]
    · rw [checkWithDtsFileSafe]
      cases hfn : env.filename with
      | error e => simp [Bind.bind, Except.bind]
      | ok fn =>
        cases hroot : findProjectRoot env.fs (env.dirOf fn) with
        | none => simp [Bind.bind, Except.bind, hroot, Pure.pure, Except.pure]
        | some r => simp [Bind.bind, Except.bind, hroot, hf r, Except.map]
    · rw [checkWithDtsFileSafe]
      cases hfn : env.filename with
      | error e => simp [Bind.bind, Except.bind]
      | ok fn => simp [Bind.bind, Except.bind, hf fn, Pure.pure, Except.pure]
  have hras : resolveAliasSafe env p = ⟨p, false, false⟩ := by
    rcases hfail with hf | hf | hf
    · simp [resolveAliasSafe, hf, Bind.bind, Except.bind]
    · rw [resolveAliasSafe]
      cases hfn : env.filename with
      | error e => simp [Bind.bind, Except.bind]
      | ok fn =>
        cases hroot : findProjectRoot env.fs (env.dirOf fn) with
        | none => simp [Bind.bind, Except.bind, hroot, Pure.pure, Except.pure]
        | some r => simp [Bind.bind, Except.bind, hroot, hf r, Except.map]
    · rw [resolveAliasSafe]
      cases hfn : env.filename with
      | error e => simp [Bind.bind, Except.bind]
      | ok fn => simp [Bind.bind, Except.bind, hf fn, Pure.pure, Except.pure]
  refine ⟨hras, hcfa n, hcwd p, ?_⟩
  rw [detectAsyncMethodSafe, idxResolveMethodPathSafe]
  by_cases ht : isTitanCallee p = true
  · simp only [ht, if_true]
    cases hm : alookup p memo with
    | some cached => simp [ht, hm]
    | none => simp [ht, hm, hcwd p, NULL_RESULT]
  · have ht' : isTitanCallee p = false := by
      cases h : isTitanCallee p
      · rfl
      · exact absurd h ht
    simp only [ht', Bool.false_eq_true, if_false, hcfa p, noAliasResult]
    simp [ht']

/-- Witness for C8: a context whose filename getter throws yields the
encoded defaults from all public queries. -/
theorem queries_never_throw_witness :
    resolveAliasSafe ⟨Except.error (), fun _ => false, fun _ => [], fun _ => Except.error ()⟩
        "db.query" = ⟨"db.query", false, false⟩
    ∧ checkForAliasSafe ⟨Except.error (), fun _ => false, fun _ => [], fun _ => Except.error ()⟩
        "db" = noAliasResult
    ∧ checkWithDtsFileSafe ⟨Except.error (), fun _ => false, fun _ => [], fun _ => Except.error ()⟩
        "db.query" = NULL_RESULT
    ∧ detectAsyncMethodSafe ⟨Except.error (), fun _ => false, fun _ => [], fun _ => Except.error ()⟩
        [] "db.query"
      = (if isTitanCallee "db.query" = true then
          (match alookup "db.query" ([] : List (String × DetectionResult)) with
           | some cached => cached
           | none => ⟨some false, some DetectionSource.fallback, none⟩)
         else ⟨some false, none, none⟩) :=
  queries_never_throw
    ⟨Except.error (), fun _ => false, fun _ => [], fun _ => Except.error ()⟩
    [] "db.query" "db" (Or.inl rfl)

end TitanPL
